import Mathlib

/-!
Shallow embedding of the PDF outline extractor (`read_pdf.py`,
class `PDFOutlineExtractor`).

Modelling choices:
* A text string is a `List Char`; Python string operations (`strip`,
  `lower`, `len`, slicing, `join`) are translated to list functions.
  Character classes of the regexes (`\s`, `\d`, `[A-Z]`, `[a-z]`) are
  modelled over ASCII, matching their behaviour on the ASCII range.
* Font sizes are exact rationals `ℚ`; Python's `round(x, 1)` on floats is
  modelled as rounding an exact rational to the nearest tenth.
* The external PDF engine (PyMuPDF) is abstracted: a document is either
  unopenable (missing file, decode error, or any exception during
  extraction) or a list of pages, each page carrying its height and its
  text blocks, each block a list of raw lines, each line a list of spans
  with text, font name, size and style flags, plus a bounding box.
* Each regex of the source is compiled by hand into an executable matcher
  with the same semantics (documented at each definition).
-/

namespace PDFOutline

/-- Python strings, modelled as lists of characters. -/
abbrev Str := List Char

/-- Python `\s` / `str.strip()` whitespace on the ASCII range:
space, tab, newline, carriage return, vertical tab, form feed. -/
def isWS (c : Char) : Bool :=
  c == ' ' || c == '\t' || c == '\n' || c == '\r' || c == '\x0b' || c == '\x0c'

/-- Python `str.strip()`: drop whitespace from both ends. -/
def pyStrip (cs : Str) : Str :=
  ((cs.dropWhile isWS).reverse.dropWhile isWS).reverse

/-- Python `str.lower()` (ASCII range). -/
def lowerStr (cs : Str) : Str := cs.map Char.toLower

/-- Python `re.sub(r'\s+', ' ', s)`: replace every maximal whitespace run
by a single space. -/
def collapseWS : Str → Str
  | [] => []
  | [c] => if isWS c then [' '] else [c]
  | c :: d :: cs =>
    if isWS c && isWS d then collapseWS (d :: cs)
    else if isWS c then ' ' :: collapseWS (d :: cs)
    else c :: collapseWS (d :: cs)

/-- One style span of a rendered line (text, font name, size, style flags). -/
structure Span where
  text : Str
  font : Str
  size : ℚ
  flags : Nat
  deriving DecidableEq

/-- A bounding box in page coordinates, `(x0, y0, x1, y1)`. -/
structure Rect where
  x0 : ℚ
  y0 : ℚ
  x1 : ℚ
  y1 : ℚ
  deriving DecidableEq

/-- A raw line as delivered by the PDF engine: its spans and bounding box. -/
structure RawLine where
  spans : List Span
  bbox : Rect
  deriving DecidableEq

/-- One page: its height (`page.rect.height`) and its text blocks, each a
list of raw lines.  Blocks without lines (image blocks) are modelled as
empty blocks; the source skips them, which is equivalent. -/
structure Page where
  height : ℚ
  blocks : List (List RawLine)
  deriving DecidableEq

/-- An abstract input document: either unopenable (missing file, failed
decode, or any exception raised while reading it — the source's
`except` path) or a list of pages. -/
inductive PDFDoc where
  | unopenable
  | ok (pages : List Page)
  deriving DecidableEq

/-- All raw lines of a page, in order (`for block in blocks: for line in
block["lines"]`). -/
def pageRawLines (p : Page) : List RawLine := p.blocks.flatten

/-- Python `" ".join(s["text"].strip() for s in spans if s["text"].strip()).strip()`:
join the stripped non-empty span texts with single spaces, then strip. -/
def lineText (spans : List Span) : Str :=
  pyStrip (List.intercalate [' '] ((spans.map fun s => pyStrip s.text).filter fun t => !t.isEmpty))

/-- Python `round(x, 1)` modelled on exact rationals: round to the
nearest tenth. -/
def round1 (q : ℚ) : ℚ := (round (q * 10) : ℤ) / 10

/-- A cleaned text line as produced by `extract_text_lines`: the line
dictionary with keys text, font, size, flags, bbox, page. -/
structure TextLine where
  text : Str
  font : Str
  size : ℚ
  flags : Nat
  bbox : Rect
  page : Nat
  deriving DecidableEq

/-! ### Header/footer identification (`_identify_headers_and_footers`) -/

/-- Increment the counter of `t` in an association list (first matching
entry), inserting a fresh entry with count 1 if absent — the behaviour of
`defaultdict(int)` under `counter[text] += 1`, with keys kept in first
insertion order as a Python dict does. -/
def bump (t : Str) : List (Str × Nat) → List (Str × Nat)
  | [] => [(t, 1)]
  | (k, n) :: rest => if k = t then (k, n + 1) :: rest else (k, n) :: bump t rest

/-- The count recorded for `t` in a counter association list (0 if absent). -/
def lookupCount (t : Str) : List (Str × Nat) → Nat
  | [] => 0
  | (k, n) :: rest => if k = t then n else lookupCount t rest

/-- The texts whose occurrence count in `ts` reaches the threshold:
build the counter, keep entries with count at least the threshold. -/
def qualifying (ts : List Str) (threshold : Nat) : List Str :=
  ((ts.foldl (fun acc t => bump t acc) []).filter fun kv => threshold ≤ kv.2).map (·.1)

/-- The texts counted in the header zone: for every raw line of every
page, the line text, if it has at least 4 characters and the top of its
bounding box lies strictly above the header margin. -/
def headerTexts (hm : ℚ) (rls : List RawLine) : List Str :=
  rls.filterMap fun r =>
    let t := lineText r.spans
    if t.length < 4 then none
    else if r.bbox.y0 < hm then some t
    else none

/-- The texts counted in the footer zone: lines of length at least 4
whose top coordinate lies strictly below the footer margin (the `elif`
branch, so a line already in the header zone is never counted here). -/
def footerTexts (hm fm : ℚ) (rls : List RawLine) : List Str :=
  rls.filterMap fun r =>
    let t := lineText r.spans
    if t.length < 4 then none
    else if r.bbox.y0 < hm then none
    else if fm < r.bbox.y0 then some t
    else none

/-- All header-zone texts of a document, margins taken from the first
page's height (top 15%). -/
def headerZone (pages : List Page) : List Str :=
  match pages with
  | [] => []
  | p0 :: _ => headerTexts (p0.height * (15 / 100)) (pages.map pageRawLines).flatten

/-- All footer-zone texts of a document (below 85% of the first page's
height). -/
def footerZone (pages : List Page) : List Str :=
  match pages with
  | [] => []
  | p0 :: _ =>
    footerTexts (p0.height * (15 / 100)) (p0.height * (85 / 100))
      (pages.map pageRawLines).flatten

/-- The repetition threshold: `max(page_count // 2, 2)` when the document
has more than 2 pages, else 1. -/
def hfThreshold (pageCount : Nat) : Nat :=
  if 2 < pageCount then max (pageCount / 2) 2 else 1

/-- `_identify_headers_and_footers`: the suppression set, as the list of
header-zone texts and footer-zone texts whose per-zone count reaches the
threshold (a list whose membership is the set membership of the source).
A document with no pages yields the empty set without scanning. -/
def identify_headers_and_footers (pages : List Page) : List Str :=
  match pages with
  | [] => []
  | _ :: _ =>
    qualifying (headerZone pages) (hfThreshold pages.length) ++
      qualifying (footerZone pages) (hfThreshold pages.length)

/-! ### Line extraction (`extract_text_lines`) -/

/-- Python `re.search(r'\s\.{3,}\s*\d+$', s)` as a Boolean matcher: the
string ends with one whitespace character, three or more dots, optional
whitespace, and one or more digits.  Matching is done from the right end:
a maximal digit run (non-empty), a whitespace run, a dot run of length at
least 3, and finally one more whitespace character; this is equivalent to
the regex search because `$` anchors the match at the end and none of the
character classes overlap at the run boundaries. -/
def dotLeaderMatch (cs : Str) : Bool :=
  let r := cs.reverse
  let ds := r.takeWhile Char.isDigit
  let r1 := r.dropWhile Char.isDigit
  let r2 := r1.dropWhile isWS
  let dots := r2.takeWhile fun c => c == '.'
  let r3 := r2.dropWhile fun c => c == '.'
  !ds.isEmpty && decide (3 ≤ dots.length) &&
    (match r3.head? with
     | some c => isWS c
     | none => false)

/-- The cleaned lines contributed by one page (page number `pn` is
0-based here; the stored `page` field is `pn + 1`): skip lines without
spans, with empty joined text, with text in the suppression set, or with
a dot-leader match; otherwise record the text together with the first
span's font, rounded size and flags. -/
def extractPageLines (supp : List Str) (pn : Nat) (p : Page) : List TextLine :=
  (pageRawLines p).filterMap fun r =>
    match r.spans with
    | [] => none
    | s0 :: _ =>
      let t := lineText r.spans
      if t.isEmpty then none
      else if t ∈ supp then none
      else if dotLeaderMatch t then none
      else some ⟨t, s0.font, round1 s0.size, s0.flags, r.bbox, pn + 1⟩

/-- `extract_text_lines`: empty for an unopenable or zero-page document;
otherwise identify headers/footers and collect the filtered lines of all
pages in order. -/
def extract_text_lines : PDFDoc → List TextLine
  | .unopenable => []
  | .ok pages =>
    if pages.isEmpty then []
    else
      let supp := identify_headers_and_footers pages
      (pages.enum.map fun ip => extractPageLines supp ip.1 ip.2).flatten

/-! ### Title extraction (`extract_title`) -/

/-- Python `max(line['size'] for line in lines)` (0 for the empty list,
which the source never queries). -/
def maxSizeOf : List TextLine → ℚ
  | [] => 0
  | l :: rest => rest.foldl (fun a x => max a x.size) l.size

/-- The default title. -/
def untitled : Str := "Untitled Document".toList

/-- `extract_title`: first 30 lines of page 1 (falling back to page 2),
join the texts of all lines at the maximum size with single spaces,
strip, collapse whitespace runs, truncate to 147 characters plus an
ellipsis when longer than 150, defaulting to the untitled marker. -/
def extract_title (text_lines : List TextLine) : Str :=
  if text_lines.isEmpty then untitled
  else
    let fp0 := (text_lines.filter fun l => l.page == 1).take 30
    let fp := if fp0.isEmpty then (text_lines.filter fun l => l.page == 2).take 30 else fp0
    if fp.isEmpty then untitled
    else
      let m := maxSizeOf fp
      let title_candidates := (fp.filter fun l => decide (l.size = m)).map (·.text)
      let t1 := pyStrip (List.intercalate [' '] title_candidates)
      let t2 := collapseWS t1
      let t3 := if 150 < t2.length then t2.take 147 ++ "...".toList else t2
      if t3.isEmpty then untitled else t3

/-! ### Font style analysis (`analyze_font_styles`) and fallback -/

/-- The sizes of the cleaned lines, in order. -/
def sizesOf (lines : List TextLine) : List ℚ := lines.map (·.size)

/-- Distinct elements in first-occurrence order — the key order of a
Python `Counter`/`dict` built by insertion. -/
def uniqFirst : List ℚ → List ℚ
  | [] => []
  | x :: xs => x :: (uniqFirst xs).filter fun y => decide (y ≠ x)

/-- The element of `cands` with the largest count in `sizes`, keeping the
earlier element on ties — `Counter.most_common(1)` tie-breaking (counts
sorted descending by a stable sort over insertion order). -/
def argmaxCount (sizes : List ℚ) : ℚ → List ℚ → ℚ
  | best, [] => best
  | best, x :: xs =>
    if sizes.count best < sizes.count x then argmaxCount sizes x xs
    else argmaxCount sizes best xs

/-- Insert into a descending-sorted list of rationals. -/
def insDescQ (q : ℚ) : List ℚ → List ℚ
  | [] => [q]
  | x :: xs => if x ≤ q then q :: x :: xs else x :: insDescQ q xs

/-- `sorted(·, reverse=True)` on rationals. -/
def sortDescQ : List ℚ → List ℚ
  | [] => []
  | x :: xs => insDescQ x (sortDescQ xs)

/-- `analyze_font_styles`: body size is the most frequent size (10.0 for
an empty input), heading sizes are the distinct sizes strictly larger
than the body size, sorted descending. -/
def analyze_font_styles (lines : List TextLine) : ℚ × List ℚ :=
  if lines.isEmpty then (10, [])
  else
    let sizes := sizesOf lines
    let body :=
      match uniqFirst sizes with
      | [] => 10
      | x :: xs => argmaxCount sizes x xs
    (body, sortDescQ ((uniqFirst sizes).filter fun s => decide (body < s)))

/-- The fallback of `extract_outline` (lines 293–298): when the heading
size list is empty, recompute from the full distinct-size list sorted
descending — smallest distinct size becomes the body size, all strictly
larger sizes the heading sizes — provided more than one distinct size
exists. -/
def fallbackSizes (lines : List TextLine) (p : ℚ × List ℚ) : ℚ × List ℚ :=
  if p.2.isEmpty then
    let unique := sortDescQ (uniqFirst (sizesOf lines))
    if 1 < unique.length then
      let b := unique.getLastD 10
      (b, unique.filter fun s => decide (b < s))
    else p
  else p

/-- The body size and heading sizes actually used by the outline loop:
the analysis result, run through the fallback. -/
def effSizes (lines : List TextLine) : ℚ × List ℚ :=
  fallbackSizes lines (analyze_font_styles lines)

/-! ### Heading detection (`is_likely_heading`) -/

/-- Greedy matcher for `(\.\d+)*` with explicit fuel (each group consumes
at least two characters, so fuel equal to the length always suffices):
returns the number of groups consumed and the remaining characters. -/
def dotGroups : Nat → Str → Nat × Str
  | 0, cs => (0, cs)
  | f + 1, cs =>
    match cs with
    | a :: b :: rest =>
      if a == '.' && b.isDigit then
        let pr := dotGroups f ((b :: rest).dropWhile Char.isDigit)
        (pr.1 + 1, pr.2)
      else (0, cs)
    | _ => (0, cs)

/-- Greedy matcher for `^\d+(\.\d+)*`, used both by heading pattern 1 and
by `classify_heading_level`'s `re.match(r'^(\d+(\.\d+)*)', text)`:
returns the number of dot-separated numeric segments of the matched
prefix and the remaining characters, or `none` when the text does not
start with a digit.  Greediness is faithful: the regex engine cannot stop
a digit run early (the next required character would again be a digit or
a dot), so the matched prefix is exactly the maximal one. -/
def numSegsRest (cs : Str) : Option (Nat × Str) :=
  if (cs.takeWhile Char.isDigit).isEmpty then none
  else
    let r := cs.dropWhile Char.isDigit
    let pr := dotGroups r.length r
    some (pr.1 + 1, pr.2)

/-- Heading pattern 1, `^\d+(\.\d+)*\s+.*`: a dotted numeric prefix
followed by at least one whitespace character (`.*` may be empty, and by
greediness the prefix is the maximal one — an earlier stopping point
would sit on a character that is neither a dot nor whitespace). -/
def patNumbered (cs : Str) : Bool :=
  match numSegsRest cs with
  | some pr => (pr.2.head?.map isWS).getD false
  | none => false

/-- Heading pattern 2, `^(Chapter|Section)\s+([A-Z]|\d+)\s+.*`: the
literal keyword, one or more whitespace characters, a single capital
letter or a maximal digit run, then one more whitespace character. -/
def patChapter (cs : Str) : Bool :=
  let chk : Str → Bool := fun rest =>
    match rest with
    | [] => false
    | w :: r1 =>
      if !isWS w then false
      else
        match r1.dropWhile isWS with
        | [] => false
        | c :: r3 =>
          if c.isUpper then (r3.head?.map isWS).getD false
          else if c.isDigit then ((r3.dropWhile Char.isDigit).head?.map isWS).getD false
          else false
  if cs.take 7 = "Chapter".toList then chk (cs.drop 7)
  else if cs.take 7 = "Section".toList then chk (cs.drop 7)
  else false

/-- Heading pattern 3, `^[A-Z\s]{3,}$`: at least three characters, all
capital letters or whitespace, consuming the whole string (the class
contains `\n`, so the `$`-before-final-newline case adds nothing). -/
def patAllCaps (cs : Str) : Bool :=
  decide (3 ≤ cs.length) && cs.all fun c => c.isUpper || isWS c

/-- End-of-string for an anchoring `$`: Python `$` also matches just
before a single final newline. -/
def dollarEnd (cs : Str) : Bool := cs.isEmpty || cs == ['\n']

/-- Matcher for `[A-Z][a-z]+`: one capital, then a maximal non-empty run
of lowercase letters; returns the rest. -/
def caseWord : Str → Option Str
  | [] => none
  | c :: rest =>
    if c.isUpper then
      if (rest.takeWhile Char.isLower).isEmpty then none
      else some (rest.dropWhile Char.isLower)
    else none

/-- Matcher for `(\s[A-Z][a-z]+)+$` with fuel (each group consumes at
least three characters): after each group, either the string ends or
further groups follow — the union over group counts realises the
backtracking of the regex engine. -/
def titleGroups : Nat → Str → Bool
  | 0, _ => false
  | f + 1, cs =>
    match cs with
    | [] => false
    | w :: rest =>
      if !isWS w then false
      else
        match caseWord rest with
        | some r => dollarEnd r || titleGroups f r
        | none => false

/-- Heading pattern 4, `^([A-Z][a-z]+)(\s[A-Z][a-z]+)+$`: two or more
capitalised words separated by single whitespace characters. -/
def patTitleCase (cs : Str) : Bool :=
  match caseWord cs with
  | some rest => titleGroups rest.length rest
  | none => false

/-- Roman numeral characters. -/
def isRomanChar (c : Char) : Bool :=
  c == 'I' || c == 'V' || c == 'X' || c == 'L' || c == 'C' || c == 'D' || c == 'M'

/-- Heading pattern 5, `^[IVXLCDM]+\.\s+.+`: a maximal non-empty run of
Roman numeral characters, a dot, then at least one whitespace character
and one character matched by `.` (any character but newline; with
backtracking, `\s+` may absorb part of the whitespace run as long as a
non-newline character remains for `.+`). -/
def patRoman (cs : Str) : Bool :=
  if (cs.takeWhile isRomanChar).isEmpty then false
  else
    match cs.dropWhile isRomanChar with
    | '.' :: t =>
      let wsr := t.takeWhile isWS
      if wsr.isEmpty then false
      else if wsr.length < t.length then true
      else (wsr.drop 1).any fun c => c != '\n'
    | _ => false

/-- The fixed keyword set of the constructor. -/
def explicitHeadings : List Str :=
  ["acknowledgements", "revision history", "table of contents",
   "references", "trademarks", "introduction", "overview"].map String.toList

/-- `is_likely_heading`: length in [3, 200], never a pure digit string;
then explicit keyword, the five regex patterns in order, or the bold flag
(bit 16). -/
def is_likely_heading (line : TextLine) : Bool :=
  let text := line.text
  if text.length < 3 || 200 < text.length then false
  else if !text.isEmpty && text.all Char.isDigit then false
  else if pyStrip (lowerStr text) ∈ explicitHeadings then true
  else if patNumbered text || patChapter text || patAllCaps text ||
      patTitleCase text || patRoman text then true
  else if line.flags &&& 16 ≠ 0 then true
  else false

/-! ### Heading level classification (`classify_heading_level`) -/

/-- The three heading levels. -/
inductive HLevel where
  | H1
  | H2
  | H3
  deriving DecidableEq

/-- `list.index` wrapped in `try/except ValueError`. -/
def idxOfQ (q : ℚ) : List ℚ → Option Nat
  | [] => none
  | x :: xs => if x = q then some 0 else (idxOfQ q xs).map (· + 1)

/-- The level derived from the number of numeric segments of a dotted
numeric prefix: one segment is H1, two are H2, otherwise H3. -/
def segLevel (n : Nat) : HLevel :=
  if n = 1 then HLevel.H1 else if n = 2 then HLevel.H2 else HLevel.H3

/-- The number of numeric segments of the greedy dotted numeric prefix of
a text (0 when the text does not start with a digit). -/
def numSegCount (cs : Str) : Nat :=
  match numSegsRest cs with
  | some pr => pr.1
  | none => 0

/-- `classify_heading_level`: rank of the font size in the heading size
list (0 is H1, 1 is H2, further or absent is H3), overridden by the
segment count whenever the text starts with a dotted numeric prefix. -/
def classify_heading_level (line : TextLine) (heading_sizes : List ℚ) : HLevel :=
  let base :=
    match idxOfQ line.size heading_sizes with
    | some 0 => HLevel.H1
    | some 1 => HLevel.H2
    | some _ => HLevel.H3
    | none => HLevel.H3
  match numSegsRest line.text with
  | some pr => segLevel pr.1
  | none => base

/-! ### Outline assembly (`extract_outline`) -/

/-- One outline entry, the dictionary with keys level, text, page. -/
structure Entry where
  level : HLevel
  text : Str
  page : Nat
  deriving DecidableEq

/-- The result dictionary with keys title and outline. -/
structure DocumentResult where
  title : Str
  outline : List Entry
  deriving DecidableEq

/-- The fixed result returned when nothing could be extracted. -/
def errorResult : DocumentResult :=
  ⟨"Error: Could Not Process Document".toList, []⟩

/-- The de-duplication key of a heading line: lowercased text and page. -/
def headingKey (l : TextLine) : Str × Nat := (lowerStr l.text, l.page)

/-- The entry appended for a heading line. -/
def mkEntry (hs : List ℚ) (l : TextLine) : Entry :=
  ⟨classify_heading_level l hs, l.text, l.page⟩

/-- The main loop of `extract_outline` (lines 303–327): skip lines at or
below the body size, keep heading candidates, skip the title on the first
two pages, de-duplicate by `(lowercased text, page)` through the `seen`
set, and append the classified entry. -/
def buildOutline (title : Str) (body : ℚ) (hs : List ℚ) :
    List TextLine → List (Str × Nat) → List Entry
  | [], _ => []
  | l :: rest, seen =>
    if l.size ≤ body then buildOutline title body hs rest seen
    else if !is_likely_heading l then buildOutline title body hs rest seen
    else if pyStrip l.text = pyStrip title ∧ l.page ≤ 2 then
      buildOutline title body hs rest seen
    else if headingKey l ∈ seen then buildOutline title body hs rest seen
    else mkEntry hs l :: buildOutline title body hs rest (headingKey l :: seen)

/-- Stable insertion by page number: the inserted (earlier) entry is
placed before every entry with the same page. -/
def insertEntry (e : Entry) : List Entry → List Entry
  | [] => [e]
  | x :: xs => if e.page ≤ x.page then e :: x :: xs else x :: insertEntry e xs

/-- `outline.sort(key=lambda x: x['page'])`: Python's sort is stable and
orders by page only, which any stable sort by page reproduces exactly. -/
def sortByPage : List Entry → List Entry
  | [] => []
  | x :: xs => insertEntry x (sortByPage xs)

/-- The outline accumulated before the final sort. -/
def preOutline (d : PDFDoc) : List Entry :=
  let lines := extract_text_lines d
  let title := extract_title lines
  let p := effSizes lines
  buildOutline title p.1 p.2 lines []

/-- `extract_outline`: the orchestration.  An empty cleaned-line sequence
short-circuits to the error result; otherwise the title and the sorted
outline are returned.  The function is total: the `except` path of the
source is the `unopenable` document, which yields no lines. -/
def extract_outline (d : PDFDoc) : DocumentResult :=
  let lines := extract_text_lines d
  if lines.isEmpty then errorResult
  else ⟨extract_title lines, sortByPage (preOutline d)⟩

/-! ### Specification-side definitions

These definitions follow the wording of the specification (not the
source) and are compared with the source-derived definitions above. -/

/-- The de-duplication key of an outline entry, per the specification:
the pair of lowercased text and page. -/
def entryKey (e : Entry) : Str × Nat := (lowerStr e.text, e.page)

/-- The dot-leader line shape described by the specification: the text
ends in one or more whitespace characters, then three or more literal
dots, then optional whitespace, then one or more digits (a single
whitespace character before the dots suffices, since `pre` may absorb
the rest of a longer run). -/
def DotLeaderShape (cs : Str) : Prop :=
  ∃ (pre dots mid ds : Str) (w : Char),
    cs = pre ++ w :: (dots ++ mid ++ ds) ∧
    isWS w = true ∧
    3 ≤ dots.length ∧ (∀ c ∈ dots, c = '.') ∧
    (∀ c ∈ mid, isWS c = true) ∧
    ds ≠ [] ∧ (∀ c ∈ ds, c.isDigit = true)

/-- The title-extraction procedure as worded by the specification: first
30 lines of page 1, else first 30 lines of page 2, else the default;
join all texts at the maximum size with single spaces, trim and collapse
whitespace runs, truncate to 147 characters plus an ellipsis beyond 150,
defaulting when empty. -/
def titleSpec (lines : List TextLine) : Str :=
  let candidates :=
    if ((lines.filter fun l => l.page == 1).take 30).isEmpty then
      (lines.filter fun l => l.page == 2).take 30
    else (lines.filter fun l => l.page == 1).take 30
  if candidates.isEmpty then untitled
  else
    let m := maxSizeOf candidates
    let joined :=
      List.intercalate [' '] ((candidates.filter fun l => decide (l.size = m)).map (·.text))
    let cleaned := collapseWS (pyStrip joined)
    let final := if 150 < cleaned.length then cleaned.take 147 ++ "...".toList else cleaned
    if final.isEmpty then untitled else final

/-! ### Concrete sample documents for witnesses and scenarios -/

/-- A one-span sample line at the vertical middle of a height-100 page
(outside both margin zones). -/
def demoRaw (t : Str) (sz : ℚ) : RawLine :=
  ⟨[⟨t, "F".toList, sz, 0⟩], ⟨0, 50, 10, 51⟩⟩

/-- A single-page document: a large title, two case-variant occurrences
of the same heading on the same page, and three body lines. -/
def docSame : PDFDoc :=
  .ok [⟨100, [[demoRaw ("Document Title Alpha".toList) 30,
               demoRaw ("Overview".toList) 20,
               demoRaw ("OVERVIEW".toList) 20,
               demoRaw ("plain body words here".toList) 12,
               demoRaw ("more plain body words".toList) 12,
               demoRaw ("final body words here".toList) 12]]⟩]

/-- A two-page document with the same heading text on both pages. -/
def docDiff : PDFDoc :=
  .ok [⟨100, [[demoRaw ("Document Title Beta".toList) 30,
               demoRaw ("References".toList) 20,
               demoRaw ("plain body words here".toList) 12,
               demoRaw ("more plain body words".toList) 12,
               demoRaw ("final body words here".toList) 12]]⟩,
       ⟨100, [[demoRaw ("References".toList) 20,
               demoRaw ("second page body text".toList) 12,
               demoRaw ("closing body words here".toList) 12]]⟩]

/-- A document that opens fine but whose single line is removed by the
dot-leader filter, leaving no cleaned lines. -/
def docDL : PDFDoc :=
  .ok [⟨100, [[demoRaw ("Chapter One ......... 42".toList) 12]]⟩]

/-- A line whose text carries a two-segment dotted numeric prefix, at a
font size equal to the top heading size. -/
def line32 : TextLine :=
  ⟨"3.2 Data Pipeline".toList, "F".toList, 20, 0, ⟨0, 50, 10, 51⟩, 3⟩

/-- The cleaned line produced for the title line of `docSame`. -/
def lineAlpha : TextLine :=
  ⟨"Document Title Alpha".toList, "F".toList, 30, 0, ⟨0, 50, 10, 51⟩, 1⟩

/-- A sample line carrying only a font size, for font-analysis inputs. -/
def demoTL (sz : ℚ) : TextLine :=
  ⟨"x y z".toList, "F".toList, sz, 0, ⟨0, 50, 10, 51⟩, 1⟩

/-- Three lines where the dominant size is also the largest, driving
`analyze_font_styles` to an empty heading-size list. -/
def linesFallback : List TextLine := [demoTL 20, demoTL 20, demoTL 12]

/-! ### Helper lemmas on list scanning -/

theorem takeWhile_all_append {α : Type} {p : α → Bool} :
    ∀ {xs ys : List α}, (∀ x ∈ xs, p x = true) →
      (∀ y, ys.head? = some y → p y = false) →
      (xs ++ ys).takeWhile p = xs ∧ (xs ++ ys).dropWhile p = ys := by
  intro xs
  induction xs with
  | nil =>
    intro ys _ h2
    cases ys with
    | nil => simp
    | cons y t => simp [List.takeWhile_cons, List.dropWhile_cons, h2 y rfl]
  | cons x xs ih =>
    intro ys h1 h2
    have hx : p x = true := h1 x (by simp)
    have hrec := ih (fun a ha => h1 a (by simp [ha])) h2
    simp [List.takeWhile_cons, List.dropWhile_cons, hx, hrec.1, hrec.2]

theorem isWS_not_digit {c : Char} (h : isWS c = true) : c.isDigit = false := by
  simp only [isWS, Bool.or_eq_true, beq_iff_eq] at h
  rcases h with ((((h | h) | h) | h) | h) | h <;> subst h <;> decide

theorem isWS_not_dot {c : Char} (h : isWS c = true) : (c == '.') = false := by
  simp only [isWS, Bool.or_eq_true, beq_iff_eq] at h
  rcases h with ((((h | h) | h) | h) | h) | h <;> subst h <;> decide

theorem dot_not_digit {c : Char} (h : c = '.') : c.isDigit = false := by
  subst h; decide

theorem dot_not_ws {c : Char} (h : c = '.') : isWS c = false := by
  subst h; decide

/-- A text of the specified dot-leader shape is matched by the embedded
`re.search(r'\s\.{3,}\s*\d+$', ·)` matcher. -/
theorem dotLeaderMatch_of_shape {cs : Str} (h : DotLeaderShape cs) :
    dotLeaderMatch cs = true := by
  obtain ⟨pre, dots, mid, ds, w, rfl, hw, hlen, hdots, hmid, hne, hds⟩ := h
  have hrev : (pre ++ w :: (dots ++ mid ++ ds)).reverse
      = ds.reverse ++ (mid.reverse ++ (dots.reverse ++ (w :: pre.reverse))) := by
    simp
  have hdsrev : ∀ x ∈ ds.reverse, Char.isDigit x = true := by
    intro x hx; exact hds x (List.mem_reverse.mp hx)
  have hmidrev : ∀ x ∈ mid.reverse, isWS x = true := by
    intro x hx; exact hmid x (List.mem_reverse.mp hx)
  have hdotsrev : ∀ x ∈ dots.reverse, (x == '.') = true := by
    intro x hx; simpa using hdots x (List.mem_reverse.mp hx)
  have hdotsne : dots.reverse ≠ [] := by
    intro hc
    have : dots = [] := by simpa using congrArg List.reverse hc
    simp [this] at hlen
  -- the head after the digit run is not a digit
  have hhead1 : ∀ y, (mid.reverse ++ (dots.reverse ++ (w :: pre.reverse))).head? = some y →
      Char.isDigit y = false := by
    intro y hy
    cases hm : mid.reverse with
    | nil =>
      cases hd : dots.reverse with
      | nil => exact absurd hd hdotsne
      | cons d t =>
        simp [hm, hd] at hy
        subst hy
        exact dot_not_digit (by simpa using hdotsrev d (by simp [hd]))
    | cons m t =>
      simp [hm] at hy
      subst hy
      exact isWS_not_digit (hmidrev m (by simp [hm]))
  have step1 := takeWhile_all_append (p := Char.isDigit) hdsrev hhead1
  -- dropping the whitespace run stops at the first dot
  have hhead2 : ∀ y, (dots.reverse ++ (w :: pre.reverse)).head? = some y →
      isWS y = false := by
    intro y hy
    cases hd : dots.reverse with
    | nil => exact absurd hd hdotsne
    | cons d t =>
      simp [hd] at hy
      subst hy
      exact dot_not_ws (by simpa using hdotsrev d (by simp [hd]))
  have step2 := takeWhile_all_append (p := isWS) hmidrev hhead2
  -- the dot run stops at the whitespace character
  have hhead3 : ∀ y, (w :: pre.reverse).head? = some y → (y == '.') = false := by
    intro y hy
    simp at hy
    subst hy
    exact isWS_not_dot hw
  have step3 := takeWhile_all_append (p := fun c => c == '.') hdotsrev hhead3
  have hdsne : ds.reverse ≠ [] := fun hc => hne (by simpa using congrArg List.reverse hc)
  have hempty : ds.reverse.isEmpty = false := by simpa [List.isEmpty_iff] using hdsne
  simp [dotLeaderMatch, hrev, step1.1, step1.2, step2.2, step3.1, step3.2, hempty, hw, hlen]

/-- Every line kept by `extractPageLines` fails the dot-leader matcher. -/
theorem not_dotLeaderMatch_of_mem_page {supp : List Str} {pn : Nat} {p : Page}
    {l : TextLine} (h : l ∈ extractPageLines supp pn p) :
    dotLeaderMatch l.text = false := by
  simp only [extractPageLines, List.mem_filterMap] at h
  obtain ⟨r, _, hf⟩ := h
  rcases hs : r.spans with _ | ⟨s0, srest⟩ <;> rw [hs] at hf
  · simp at hf
  · simp at hf
    obtain ⟨-, -, h3, heq⟩ := hf
    rw [← heq]
    exact h3

/-- Every line kept by `extract_text_lines` fails the dot-leader matcher
(the filter at line 139 of the source removed the others). -/
theorem not_dotLeaderMatch_of_mem {d : PDFDoc} {l : TextLine}
    (h : l ∈ extract_text_lines d) : dotLeaderMatch l.text = false := by
  cases d with
  | unopenable => simp [extract_text_lines] at h
  | ok pages =>
    by_cases hp : pages.isEmpty
    · simp [extract_text_lines, hp] at h
    · rw [extract_text_lines, if_neg (by simpa using hp)] at h
      simp only [List.mem_flatten, List.mem_map] at h
      obtain ⟨L, ⟨ip, hip, hL⟩, hmem⟩ := h
      rw [← hL] at hmem
      exact not_dotLeaderMatch_of_mem_page hmem

theorem guard_untitled_pos (a : Str) :
    0 < (if a.isEmpty = true then untitled else a).length := by
  split
  · decide
  · next h => exact List.length_pos.mpr (by simpa using h)

theorem extract_title_pos (lines : List TextLine) : 0 < (extract_title lines).length := by
  by_cases h0 : lines.isEmpty = true
  · rw [extract_title, if_pos h0]; decide
  · rw [extract_title, if_neg h0]
    dsimp only []
    repeat' split
    all_goals
      first
        | decide
        | (next h => exact List.length_pos.mpr (by simpa using h))

/-- Claim C1: for every input document, `extract_outline` returns a
result with a non-empty (hence non-null) title and a list outline, and
for an unopenable or zero-page document it returns exactly the fixed
error result.  Totality (never raising) holds by construction: the
embedded `extract_outline` is a total function into `DocumentResult`. -/
theorem claim_C1 :
    (∀ d : PDFDoc, 0 < (extract_outline d).title.length) ∧
      extract_outline PDFDoc.unopenable = errorResult ∧
      extract_outline (PDFDoc.ok []) = errorResult := by
  refine ⟨?_, rfl, rfl⟩
  intro d
  rw [extract_outline]
  split
  · decide
  · exact extract_title_pos _

/-- Claim C2: whenever a line's text begins with a digit (hence with a
dotted numeric prefix matching the regex), `classify_heading_level`
returns the level determined solely by the number of numeric segments of
that prefix, for every heading-size list — the size-based rank is
overridden. -/
theorem claim_C2 (line : TextLine) (heading_sizes : List ℚ)
    (h : (line.text.headD ' ').isDigit = true) :
    classify_heading_level line heading_sizes = segLevel (numSegCount line.text) := by
  cases hl : line.text with
  | nil => rw [hl] at h; exact absurd h (by decide)
  | cons c rest =>
    have hc : c.isDigit = true := by rw [hl] at h; simpa using h
    simp [classify_heading_level, numSegCount, numSegsRest, hl, hc, List.takeWhile_cons]

/-- Witness for C2: the line `3.2 Data Pipeline` at size 20 is classified
H2 even though its size ranks first (H1) in the heading-size list
`[20, 16]`. -/
theorem claim_C2_witness : classify_heading_level line32 [20, 16] = HLevel.H2 := by
  rw [claim_C2 line32 [20, 16] (by decide)]
  decide

/-- Claim C8: no line of the cleaned sequence produced by
`extract_text_lines` has a text of the trailing dot-leader shape (one or
more whitespace characters, three or more dots, optional whitespace, one
or more digits at the end), so such lines never reach any downstream
stage. -/
theorem claim_C8 (d : PDFDoc) (l : TextLine) (h : l ∈ extract_text_lines d) :
    ¬ DotLeaderShape l.text := by
  intro hshape
  have hm := dotLeaderMatch_of_shape hshape
  have hn := not_dotLeaderMatch_of_mem h
  rw [hm] at hn
  exact absurd hn (by decide)

/-- Witness for C8: the title line extracted from `docSame` is in the
cleaned sequence, hence its text is not of the dot-leader shape. -/
theorem claim_C8_witness : ¬ DotLeaderShape lineAlpha.text :=
  claim_C8 docSame lineAlpha (by with_unfolding_all decide)

/-- Claim C10: whenever the cleaned line sequence is empty — also for a
document that opens fine but has every line filtered away —
`extract_outline` returns the fixed error result. -/
theorem claim_C10 (d : PDFDoc) (h : extract_text_lines d = []) :
    extract_outline d = errorResult := by
  simp [extract_outline, h]

/-- Witness for C10: `docDL` opens successfully but its only line is a
dot-leader line, so the cleaned sequence is empty and the error result is
returned. -/
theorem claim_C10_witness :
    extract_text_lines docDL = [] ∧ extract_outline docDL = errorResult :=
  ⟨by with_unfolding_all decide, claim_C10 docDL (by with_unfolding_all decide)⟩

/-! ### Counter lemmas for the header/footer detector -/

theorem lookupCount_bump (t s : Str) (acc : List (Str × Nat)) :
    lookupCount t (bump s acc) = lookupCount t acc + (if s = t then 1 else 0) := by
  induction acc with
  | nil =>
    by_cases h : s = t <;> simp [bump, lookupCount, h]
  | cons kv rest ih =>
    obtain ⟨k, n⟩ := kv
    by_cases hks : k = s
    · subst hks
      by_cases hkt : k = t <;> simp [bump, lookupCount, hkt]
    · by_cases hkt : k = t
      · subst hkt
        have hst : ¬ s = k := fun hc => hks hc.symm
        simp [bump, lookupCount, hks, hst]
      · simp [bump, lookupCount, hks, hkt, ih]

theorem lookupCount_foldl (ts : List Str) (t : Str) :
    ∀ acc, lookupCount t (ts.foldl (fun a x => bump x a) acc)
      = lookupCount t acc + ts.count t := by
  induction ts with
  | nil => intro acc; simp
  | cons x ts ih =>
    intro acc
    rw [List.foldl_cons, ih, lookupCount_bump, List.count_cons]
    by_cases h : x = t
    · simp [h, Nat.add_assoc, Nat.add_comm]
    · have : ¬ (t == x) = true := by simpa [beq_iff_eq] using fun hc => h hc.symm
      simp [h, this]

theorem mem_of_lookupCount_pos (t : Str) :
    ∀ acc : List (Str × Nat), 0 < lookupCount t acc → (t, lookupCount t acc) ∈ acc := by
  intro acc
  induction acc with
  | nil => intro h; simp [lookupCount] at h
  | cons kv rest ih =>
    obtain ⟨k, n⟩ := kv
    intro h
    by_cases hk : k = t
    · subst hk
      simp [lookupCount]
    · rw [lookupCount, if_neg hk] at h ⊢
      exact List.mem_cons_of_mem _ (ih h)

theorem keys_bump (s : Str) (acc : List (Str × Nat)) :
    (bump s acc).map (·.1)
      = acc.map (·.1) ++ (if s ∈ acc.map (·.1) then [] else [s]) := by
  induction acc with
  | nil => simp [bump]
  | cons kv rest ih =>
    obtain ⟨k, n⟩ := kv
    by_cases hk : k = s
    · subst hk
      simp [bump]
    · have hsk : ¬ s = k := fun hc => hk hc.symm
      simp only [bump, if_neg hk, List.map_cons, ih]
      by_cases hmem : s ∈ List.map (fun x => x.1) rest
      · simp [hmem, hsk]
      · simp [hmem, hsk]

theorem nodup_keys_bump (s : Str) (acc : List (Str × Nat))
    (h : (acc.map (·.1)).Nodup) : ((bump s acc).map (·.1)).Nodup := by
  rw [keys_bump]
  by_cases hs : s ∈ acc.map (·.1)
  · simpa [hs] using h
  · rw [if_neg hs]
    exact ((List.perm_append_singleton s _).nodup_iff).mpr (List.nodup_cons.mpr ⟨hs, h⟩)

theorem nodup_keys_foldl (ts : List Str) :
    ∀ acc, (acc.map (·.1)).Nodup →
      ((ts.foldl (fun a x => bump x a) acc).map (·.1)).Nodup := by
  induction ts with
  | nil => intro acc h; simpa using h
  | cons x ts ih => intro acc h; exact ih _ (nodup_keys_bump x acc h)

theorem lookupCount_of_mem_nodup {t : Str} {n : Nat} :
    ∀ {acc : List (Str × Nat)}, (acc.map (·.1)).Nodup → (t, n) ∈ acc →
      lookupCount t acc = n := by
  intro acc
  induction acc with
  | nil => intro _ h; simp at h
  | cons kv rest ih =>
    obtain ⟨k, m⟩ := kv
    intro hnd hmem
    have hnd' : k ∉ rest.map (·.1) ∧ (rest.map (·.1)).Nodup :=
      List.nodup_cons.mp (by simpa using hnd)
    by_cases hk : k = t
    · subst hk
      rw [lookupCount, if_pos rfl]
      rcases List.mem_cons.mp hmem with heq | htl
      · simpa using congrArg Prod.snd heq.symm
      · exact absurd (List.mem_map.mpr ⟨(k, n), htl, rfl⟩) hnd'.1
    · rw [lookupCount, if_neg hk]
      rcases List.mem_cons.mp hmem with heq | htl
      · exact absurd ((show t = k by simpa using congrArg Prod.fst heq).symm) hk
      · exact ih hnd'.2 htl

/-- Membership in the qualifying list is exactly reaching the threshold
with the occurrence count, for any threshold of at least 1. -/
theorem mem_qualifying {ts : List Str} {θ : Nat} (hθ : 1 ≤ θ) (t : Str) :
    t ∈ qualifying ts θ ↔ θ ≤ ts.count t := by
  have hcount : lookupCount t (ts.foldl (fun a x => bump x a) []) = ts.count t := by
    simpa [lookupCount] using lookupCount_foldl ts t []
  constructor
  · intro h
    simp only [qualifying, List.mem_map, List.mem_filter] at h
    obtain ⟨⟨k, n⟩, ⟨hmem, hn⟩, hk⟩ := h
    simp only at hk
    subst hk
    have hnd := nodup_keys_foldl ts [] (by simp)
    have := lookupCount_of_mem_nodup hnd hmem
    rw [hcount] at this
    subst this
    simpa using hn
  · intro h
    have hpos : 0 < lookupCount t (ts.foldl (fun a x => bump x a) []) := by
      rw [hcount]; exact Nat.lt_of_lt_of_le hθ h
    have hmem := mem_of_lookupCount_pos t _ hpos
    rw [hcount] at hmem
    simp only [qualifying, List.mem_map, List.mem_filter]
    exact ⟨(t, ts.count t), ⟨hmem, by simpa using h⟩, rfl⟩

/-- Claim C7: a text is in the suppression set exactly when its
header-zone count or its footer-zone count (each zone only counting
texts of length at least 4 inside the zone) reaches the threshold
`max(pageCount / 2, 2)` for documents with more than 2 pages and 1
otherwise; a zero-page document yields the empty set. -/
theorem claim_C7 :
    (∀ (pages : List Page) (t : Str),
      t ∈ identify_headers_and_footers pages ↔
        ((if 2 < pages.length then max (pages.length / 2) 2 else 1)
            ≤ (headerZone pages).count t ∨
          (if 2 < pages.length then max (pages.length / 2) 2 else 1)
            ≤ (footerZone pages).count t)) ∧
      identify_headers_and_footers [] = [] := by
  refine ⟨?_, rfl⟩
  intro pages t
  have hθ : ∀ n : Nat, 1 ≤ hfThreshold n := by
    intro n
    rw [hfThreshold]
    split
    · exact le_trans (by decide) (Nat.le_max_right _ 2)
    · exact Nat.le_refl 1
  cases pages with
  | nil =>
    simp [identify_headers_and_footers, headerZone, footerZone]
  | cons p0 prest =>
    have hmem : identify_headers_and_footers (p0 :: prest)
        = qualifying (headerZone (p0 :: prest)) (hfThreshold (p0 :: prest).length)
          ++ qualifying (footerZone (p0 :: prest)) (hfThreshold (p0 :: prest).length) :=
      rfl
    rw [hmem, List.mem_append, mem_qualifying (hθ _) t, mem_qualifying (hθ _) t,
      hfThreshold]

/-! ### Lemmas on the assembly loop and the final sort -/

/-- Every produced entry stems from a kept line: one that is in the
input, strictly exceeds the body size, passes the heading test, and is
rendered by `mkEntry`. -/
theorem mem_buildOutline {title : Str} {body : ℚ} {hs : List ℚ} :
    ∀ {lines : List TextLine} {seen : List (Str × Nat)} {e : Entry},
      e ∈ buildOutline title body hs lines seen →
      ∃ l, l ∈ lines ∧ body < l.size ∧ is_likely_heading l = true ∧ e = mkEntry hs l := by
  intro lines
  induction lines with
  | nil => intro seen e h; simp [buildOutline] at h
  | cons l rest ih =>
    intro seen e h
    rw [buildOutline] at h
    by_cases h1 : l.size ≤ body
    · rw [if_pos h1] at h
      obtain ⟨l', hmem, hrest⟩ := ih h
      exact ⟨l', List.mem_cons_of_mem _ hmem, hrest⟩
    · rw [if_neg h1] at h
      by_cases h2 : is_likely_heading l
      · rw [if_neg (by simp [h2])] at h
        by_cases h3 : pyStrip l.text = pyStrip title ∧ l.page ≤ 2
        · rw [if_pos h3] at h
          obtain ⟨l', hmem, hrest⟩ := ih h
          exact ⟨l', List.mem_cons_of_mem _ hmem, hrest⟩
        · rw [if_neg h3] at h
          by_cases h4 : headingKey l ∈ seen
          · rw [if_pos h4] at h
            obtain ⟨l', hmem, hrest⟩ := ih h
            exact ⟨l', List.mem_cons_of_mem _ hmem, hrest⟩
          · rw [if_neg h4] at h
            rcases List.mem_cons.mp h with heq | htl
            · exact ⟨l, List.mem_cons_self .., lt_of_not_le h1, h2, heq⟩
            · obtain ⟨l', hmem, hrest⟩ := ih htl
              exact ⟨l', List.mem_cons_of_mem _ hmem, hrest⟩
      · rw [if_pos (by simp [h2])] at h
        obtain ⟨l', hmem, hrest⟩ := ih h
        exact ⟨l', List.mem_cons_of_mem _ hmem, hrest⟩

/-- The keys of the produced entries are distinct and disjoint from the
`seen` set carried in. -/
theorem buildOutline_keys {title : Str} {body : ℚ} {hs : List ℚ} :
    ∀ (lines : List TextLine) (seen : List (Str × Nat)),
      ((buildOutline title body hs lines seen).map entryKey).Nodup ∧
      ∀ k ∈ (buildOutline title body hs lines seen).map entryKey, k ∉ seen := by
  intro lines
  induction lines with
  | nil => intro seen; simp [buildOutline]
  | cons l rest ih =>
    intro seen
    rw [buildOutline]
    by_cases h1 : l.size ≤ body
    · rw [if_pos h1]; exact ih seen
    · rw [if_neg h1]
      by_cases h2 : is_likely_heading l
      · rw [if_neg (by simp [h2])]
        by_cases h3 : pyStrip l.text = pyStrip title ∧ l.page ≤ 2
        · rw [if_pos h3]; exact ih seen
        · rw [if_neg h3]
          by_cases h4 : headingKey l ∈ seen
          · rw [if_pos h4]; exact ih seen
          · rw [if_neg h4]
            have hrec := ih (headingKey l :: seen)
            have hkey : entryKey (mkEntry hs l) = headingKey l := rfl
            constructor
            · rw [List.map_cons, hkey]
              refine List.nodup_cons.mpr ⟨?_, hrec.1⟩
              intro hc
              exact (hrec.2 _ hc) (List.mem_cons_self ..)
            · intro k hk
              rw [List.map_cons, hkey] at hk
              rcases List.mem_cons.mp hk with rfl | htl
              · exact h4
              · exact fun hc => (hrec.2 _ htl) (List.mem_cons_of_mem _ hc)
      · rw [if_pos (by simp [h2])]; exact ih seen

theorem insertEntry_perm (e : Entry) (l : List Entry) :
    List.Perm (insertEntry e l) (e :: l) := by
  induction l with
  | nil => exact List.Perm.refl _
  | cons x xs ih =>
    rw [insertEntry]
    by_cases h : e.page ≤ x.page
    · rw [if_pos h]
    · rw [if_neg h]
      exact (List.Perm.cons x ih).trans (List.Perm.swap e x xs)

theorem sortByPage_perm (l : List Entry) : List.Perm (sortByPage l) l := by
  induction l with
  | nil => exact List.Perm.refl _
  | cons x xs ih => exact (insertEntry_perm x (sortByPage xs)).trans (List.Perm.cons x ih)

theorem pairwise_insertEntry {e : Entry} {l : List Entry}
    (h : l.Pairwise fun a b => a.page ≤ b.page) :
    (insertEntry e l).Pairwise fun a b => a.page ≤ b.page := by
  induction l with
  | nil => simp [insertEntry]
  | cons x xs ih =>
    rw [insertEntry]
    have hx := List.pairwise_cons.mp h
    by_cases hp : e.page ≤ x.page
    · rw [if_pos hp]
      refine List.pairwise_cons.mpr ⟨?_, h⟩
      intro b hb
      rcases List.mem_cons.mp hb with rfl | hbx
      · exact hp
      · exact le_trans hp (hx.1 b hbx)
    · rw [if_neg hp]
      refine List.pairwise_cons.mpr ⟨?_, ih hx.2⟩
      intro b hb
      rcases List.mem_cons.mp ((insertEntry_perm e xs).mem_iff.mp hb) with rfl | hbx
      · exact le_of_not_le hp
      · exact hx.1 b hbx

theorem pairwise_sortByPage (l : List Entry) :
    (sortByPage l).Pairwise fun a b => a.page ≤ b.page := by
  induction l with
  | nil => simp [sortByPage]
  | cons x xs ih => exact pairwise_insertEntry ih

theorem filter_insertEntry (e : Entry) (l : List Entry) (p : Nat) :
    (insertEntry e l).filter (fun x => x.page == p)
      = if e.page = p then e :: l.filter (fun x => x.page == p)
        else l.filter (fun x => x.page == p) := by
  induction l with
  | nil =>
    by_cases h : e.page = p <;> simp [insertEntry, h]
  | cons x xs ih =>
    rw [insertEntry]
    by_cases hp : e.page ≤ x.page
    · rw [if_pos hp]
      by_cases h : e.page = p <;> simp [h, List.filter_cons]
    · rw [if_neg hp]
      rw [List.filter_cons, List.filter_cons, ih]
      by_cases h : e.page = p
      · have hx : ¬ x.page = p := by
          intro hc
          apply Nat.lt_irrefl p
          have hlt := Nat.lt_of_not_le hp
          rw [hc, h] at hlt
          exact hlt
        simp [h, hx]
      · simp [h]

theorem filter_sortByPage (l : List Entry) (p : Nat) :
    (sortByPage l).filter (fun x => x.page == p) = l.filter (fun x => x.page == p) := by
  induction l with
  | nil => rfl
  | cons x xs ih =>
    rw [sortByPage, filter_insertEntry, List.filter_cons]
    by_cases h : x.page = p
    · simp [h, ih]
    · simp [h, ih, fun hc => h (by simpa using hc)]

/-- Claim C3: the assembled outline carries pairwise-distinct
`(lowercased text, page)` keys; on `docSame` two case-variant copies of
one heading on the same page collapse to a single entry keeping the
first occurrence's casing, while on `docDiff` the same heading text on
two pages yields two entries. -/
theorem claim_C3 :
    (∀ d : PDFDoc, (((extract_outline d).outline).map entryKey).Nodup) ∧
      (extract_outline docSame).outline = [⟨HLevel.H2, "Overview".toList, 1⟩] ∧
      (extract_outline docDiff).outline
        = [⟨HLevel.H2, "References".toList, 1⟩, ⟨HLevel.H2, "References".toList, 2⟩] := by
  refine ⟨?_, by with_unfolding_all decide, by with_unfolding_all decide⟩
  intro d
  rw [extract_outline]
  split
  · simp [errorResult]
  · have hperm := ((sortByPage_perm (preOutline d)).map entryKey).nodup_iff
    refine hperm.mpr ?_
    simp only [preOutline]
    exact (buildOutline_keys _ _).1

/-- Claim C4: every outline entry originates from a cleaned line whose
size strictly exceeds the (post-fallback) body size — the size filter
runs before the heading test, so no line at or below the body size can
contribute an entry. -/
theorem claim_C4 (d : PDFDoc) (e : Entry) (h : e ∈ (extract_outline d).outline) :
    ∃ l, l ∈ extract_text_lines d ∧
      (effSizes (extract_text_lines d)).1 < l.size ∧
      e.text = l.text ∧ e.page = l.page := by
  rw [extract_outline] at h
  by_cases hemp : (extract_text_lines d).isEmpty
  · rw [if_pos hemp] at h
    simp [errorResult] at h
  · rw [if_neg hemp] at h
    have h2 : e ∈ preOutline d := (sortByPage_perm _).mem_iff.mp h
    simp only [preOutline] at h2
    obtain ⟨l, hmem, hlt, hhead, heq⟩ := mem_buildOutline h2
    exact ⟨l, hmem, hlt, by rw [heq]; simp [mkEntry], by rw [heq]; simp [mkEntry]⟩

/-- Witness for C4: the single outline entry of `docSame` stems from a
cleaned line above the body size with the same text and page. -/
theorem claim_C4_witness :
    ∃ l, l ∈ extract_text_lines docSame ∧
      (effSizes (extract_text_lines docSame)).1 < l.size ∧
      "Overview".toList = l.text ∧ 1 = l.page :=
  claim_C4 docSame ⟨HLevel.H2, "Overview".toList, 1⟩ (by with_unfolding_all decide)

/-- Claim C5: the returned outline is non-decreasing in page number, and
for every page the entries at that page appear exactly as in the
pre-sort assembly order — the sort is stable and orders by page only. -/
theorem claim_C5 (d : PDFDoc) :
    ((extract_outline d).outline).Pairwise (fun a b => a.page ≤ b.page) ∧
      ∀ p : Nat, ((extract_outline d).outline).filter (fun e => e.page == p)
        = (preOutline d).filter (fun e => e.page == p) := by
  rw [extract_outline]
  by_cases hemp : (extract_text_lines d).isEmpty
  · rw [if_pos hemp]
    have hnil : extract_text_lines d = [] := List.isEmpty_iff.mp hemp
    have hpre : preOutline d = [] := by simp [preOutline, hnil, buildOutline]
    constructor
    · simp [errorResult]
    · intro p
      rw [hpre]
      simp [errorResult]
  · rw [if_neg hemp]
    exact ⟨pairwise_sortByPage _, fun p => filter_sortByPage _ p⟩

/-! ### Lemmas on size analysis and the fallback -/

theorem mem_uniqFirst (a : ℚ) : ∀ l : List ℚ, a ∈ uniqFirst l ↔ a ∈ l := by
  intro l
  induction l with
  | nil => simp [uniqFirst]
  | cons x xs ih =>
    rw [uniqFirst]
    by_cases hax : a = x
    · subst hax; simp
    · simp only [List.mem_cons, List.mem_filter]
      constructor
      · rintro (rfl | ⟨hmem, -⟩)
        · exact Or.inl rfl
        · exact Or.inr (ih.mp hmem)
      · rintro (rfl | hmem)
        · exact Or.inl rfl
        · exact Or.inr ⟨ih.mpr hmem, by simpa using hax⟩

theorem nodup_uniqFirst : ∀ l : List ℚ, (uniqFirst l).Nodup := by
  intro l
  induction l with
  | nil => simp [uniqFirst]
  | cons x xs ih =>
    rw [uniqFirst]
    refine List.nodup_cons.mpr ⟨?_, ih.filter _⟩
    intro hc
    have := (List.mem_filter.mp hc).2
    simp at this

theorem insDescQ_perm (q : ℚ) (l : List ℚ) : List.Perm (insDescQ q l) (q :: l) := by
  induction l with
  | nil => exact List.Perm.refl _
  | cons x xs ih =>
    rw [insDescQ]
    by_cases h : x ≤ q
    · rw [if_pos h]
    · rw [if_neg h]
      exact (List.Perm.cons x ih).trans (List.Perm.swap q x xs)

theorem sortDescQ_perm (l : List ℚ) : List.Perm (sortDescQ l) l := by
  induction l with
  | nil => exact List.Perm.refl _
  | cons x xs ih => exact (insDescQ_perm x (sortDescQ xs)).trans (List.Perm.cons x ih)

theorem pairwise_insDescQ {q : ℚ} {l : List ℚ}
    (h : l.Pairwise fun a b => b ≤ a) :
    (insDescQ q l).Pairwise fun a b => b ≤ a := by
  induction l with
  | nil => simp [insDescQ]
  | cons x xs ih =>
    rw [insDescQ]
    have hx := List.pairwise_cons.mp h
    by_cases hp : x ≤ q
    · rw [if_pos hp]
      refine List.pairwise_cons.mpr ⟨?_, h⟩
      intro b hb
      rcases List.mem_cons.mp hb with rfl | hbx
      · exact hp
      · exact le_trans (hx.1 b hbx) hp
    · rw [if_neg hp]
      refine List.pairwise_cons.mpr ⟨?_, ih hx.2⟩
      intro b hb
      rcases List.mem_cons.mp ((insDescQ_perm q xs).mem_iff.mp hb) with rfl | hbx
      · exact le_of_not_le hp
      · exact hx.1 b hbx

theorem pairwise_sortDescQ (l : List ℚ) :
    (sortDescQ l).Pairwise fun a b => b ≤ a := by
  induction l with
  | nil => simp [sortDescQ]
  | cons x xs ih => exact pairwise_insDescQ ih

/-- In a descending-sorted list the last element is a lower bound and a
member (for any default). -/
theorem getLastD_min : ∀ (l : List ℚ) (d : ℚ), (l.Pairwise fun a b => b ≤ a) →
    l ≠ [] → l.getLastD d ∈ l ∧ ∀ x ∈ l, l.getLastD d ≤ x := by
  intro l
  induction l with
  | nil => intro d _ h; exact absurd rfl h
  | cons a t ih =>
    intro d hp _
    cases t with
    | nil => simp
    | cons b r =>
      have hx := List.pairwise_cons.mp hp
      have hrec := ih a hx.2 (by simp)
      rw [List.getLastD_cons]
      constructor
      · exact List.mem_cons_of_mem _ hrec.1
      · intro x hxm
        rcases List.mem_cons.mp hxm with rfl | hxm
        · exact le_trans (hrec.2 _ hrec.1) (hx.1 _ hrec.1)
        · exact hrec.2 x hxm

/-- Claim C6: when the analysis returns no heading sizes but at least
two distinct sizes occur, the fallback makes the body size the smallest
size present, and the heading sizes exactly the strictly larger sizes,
distinct and sorted descending — in particular non-empty. -/
theorem claim_C6 (lines : List TextLine)
    (h1 : (analyze_font_styles lines).2 = [])
    (h2 : 2 ≤ (uniqFirst (sizesOf lines)).length) :
    (effSizes lines).1 ∈ sizesOf lines ∧
      (∀ s ∈ sizesOf lines, (effSizes lines).1 ≤ s) ∧
      (∀ s : ℚ, s ∈ (effSizes lines).2 ↔ s ∈ sizesOf lines ∧ (effSizes lines).1 < s) ∧
      ((effSizes lines).2).Pairwise (fun a b => b < a) ∧
      (effSizes lines).2 ≠ [] := by
  have hperm := sortDescQ_perm (uniqFirst (sizesOf lines))
  have hlen : 1 < (sortDescQ (uniqFirst (sizesOf lines))).length := by
    rw [hperm.length_eq]; exact h2
  have heff : effSizes lines
      = ((sortDescQ (uniqFirst (sizesOf lines))).getLastD 10,
         (sortDescQ (uniqFirst (sizesOf lines))).filter
           fun s => decide ((sortDescQ (uniqFirst (sizesOf lines))).getLastD 10 < s)) := by
    rw [effSizes, fallbackSizes]
    rw [if_pos (by simp [h1]), if_pos hlen]
  have hpw := pairwise_sortDescQ (uniqFirst (sizesOf lines))
  have hnd : (sortDescQ (uniqFirst (sizesOf lines))).Nodup :=
    hperm.nodup_iff.mpr (nodup_uniqFirst _)
  have hne : sortDescQ (uniqFirst (sizesOf lines)) ≠ [] := by
    intro hc
    rw [hc] at hlen
    exact absurd hlen (by decide)
  obtain ⟨hlast_mem, hlast_min⟩ := getLastD_min _ 10 hpw hne
  have hmem_sizes : ∀ a : ℚ, a ∈ sortDescQ (uniqFirst (sizesOf lines)) ↔ a ∈ sizesOf lines := by
    intro a
    rw [hperm.mem_iff, mem_uniqFirst]
  rw [heff]
  dsimp only
  refine ⟨?_, ?_, ?_, ?_, ?_⟩
  · exact (hmem_sizes _).mp hlast_mem
  · intro s hsin
    exact hlast_min s ((hmem_sizes s).mpr hsin)
  · intro s
    rw [List.mem_filter]
    simp only [decide_eq_true_eq]
    rw [hmem_sizes s]
  · have hstrict : (sortDescQ (uniqFirst (sizesOf lines))).Pairwise fun a b => b < a := by
      refine (hpw.and hnd).imp ?_
      intro a b hab
      exact lt_of_le_of_ne hab.1 (Ne.symm hab.2)
    exact hstrict.filter _
  · -- the head of the descending list is strictly above the last, so it survives the filter
    obtain ⟨u0, urest, hu⟩ := List.exists_cons_of_ne_nil hne
    have hur : urest ≠ [] := by
      intro hc
      rw [hu, hc] at hlen
      simp at hlen
    have htail_pw : urest.Pairwise fun a b : ℚ => b ≤ a := by
      have := hpw
      rw [hu] at this
      exact (List.pairwise_cons.mp this).2
    have htail := getLastD_min urest u0 htail_pw hur
    have hlast_eq : (sortDescQ (uniqFirst (sizesOf lines))).getLastD 10 = urest.getLastD u0 := by
      rw [hu, List.getLastD_cons]
    have hu0_notin : u0 ∉ urest := by
      have := hnd
      rw [hu] at this
      exact (List.nodup_cons.mp this).1
    have hne_u0 : (sortDescQ (uniqFirst (sizesOf lines))).getLastD 10 ≠ u0 := by
      intro hc
      rw [hlast_eq] at hc
      rw [← hc] at hu0_notin
      exact hu0_notin htail.1
    have hlt : (sortDescQ (uniqFirst (sizesOf lines))).getLastD 10 < u0 :=
      lt_of_le_of_ne (hlast_min u0 (by rw [hu]; exact List.mem_cons_self ..)) hne_u0
    intro hc
    have hu0_in : u0 ∈ (sortDescQ (uniqFirst (sizesOf lines))).filter
        fun s => decide ((sortDescQ (uniqFirst (sizesOf lines))).getLastD 10 < s) := by
      rw [List.mem_filter]
      exact ⟨by rw [hu]; exact List.mem_cons_self .., by simpa using hlt⟩
    rw [hc] at hu0_in
    simp at hu0_in

/-- Witness for C6: on three lines of sizes 20, 20, 12 the analysis
yields body 20 with no heading sizes, and the fallback produces body 12
and heading sizes `[20]`. -/
theorem claim_C6_witness :
    (effSizes linesFallback).1 ∈ sizesOf linesFallback ∧
      (∀ s ∈ sizesOf linesFallback, (effSizes linesFallback).1 ≤ s) ∧
      (∀ s : ℚ, s ∈ (effSizes linesFallback).2 ↔
        s ∈ sizesOf linesFallback ∧ (effSizes linesFallback).1 < s) ∧
      ((effSizes linesFallback).2).Pairwise (fun a b => b < a) ∧
      (effSizes linesFallback).2 ≠ [] :=
  claim_C6 linesFallback (by with_unfolding_all decide) (by with_unfolding_all decide)

/-- Claim C9: `extract_title` behaves exactly as the specification
describes — first 30 lines of page 1 with a page-2 fallback and the
untitled default, all lines at the maximum size joined by single spaces,
whitespace collapsed, truncation to 147 characters plus an ellipsis
beyond 150, and the untitled default for an empty result.  The two
sides agree on the empty input as well, where the source's early return
and the specification's empty-candidate default coincide. -/
theorem claim_C9 : ∀ lines : List TextLine, extract_title lines = titleSpec lines := by
  intro lines
  cases lines with
  | nil => rfl
  | cons a t => rfl

end PDFOutline
